import Mathlib

/-!
Verification development for the notion-docs-sync repository.

Strings are embedded as `List Char`.  JavaScript `Date` values are embedded
as their millisecond time values (`Int`) where only arithmetic on the time
value matters (`compareSyncTimestamps`), and as canonical calendar
components (`IsoDate`) where ISO-8601 formatting and parsing matter
(`formatTimestamp` / `parseTimestamp`): the two views are related by the
usual bijection between time values and canonical component tuples.
`Math.floor(x / 1000)` on an integral millisecond time value is exact floor
division (the double rounding cannot cross an integer boundary on the
representable Date range), so it is embedded as `Int.fdiv · 1000`.
Scores from the documentation mapper are embedded in exact fixed-point
centiunits (`Nat`, scaled by 100): the source only ever compares and takes
maxima of the decimal literals 0.9, 0.85, 0.5, 0.3, 0.15 and 0, so the
scaling 0.9 to 90, 0.85 to 85, 0.5 to 50, 0.3 to 30, 0.15 to 15 is an exact,
order-preserving and max-preserving representation of the double values,
with 100 denoting the score 1.0.
-/

/-- Abbreviation for the character-list representation of JS strings. -/
abbrev Str : Type := List Char

/-- The JS `\s` whitespace class (the code points relevant here). -/
def jsWs (c : Char) : Bool :=
  c = ' ' || c = '\t' || c = '\n' || c = '\r' ||
  c = (Char.ofNat 11) || c = (Char.ofNat 12) || c = (Char.ofNat 160) ||
  c = (Char.ofNat 0xfeff) || c = (Char.ofNat 0x2028) || c = (Char.ofNat 0x2029)

/-- The JS regex `.` class: any character except a line terminator. -/
def jsDot (c : Char) : Bool :=
  !(c = '\n' || c = '\r' || c = (Char.ofNat 0x2028) || c = (Char.ofNat 0x2029))

/-- ASCII letter test, the regex class `[a-zA-Z]`. -/
def asciiLetter (c : Char) : Bool :=
  ('a' ≤ c && c ≤ 'z') || ('A' ≤ c && c ≤ 'Z')

/-- ASCII digit test, the regex class `[0-9]`. -/
def asciiDigit (c : Char) : Bool :=
  '0' ≤ c && c ≤ '9'

/-- Lowercasing of a character as `String.prototype.toLowerCase` acts on
the ASCII range (the only range exercised by this code base). -/
def lowerChar (c : Char) : Char :=
  if 'A' ≤ c && c ≤ 'Z' then Char.ofNat (c.toNat + 32) else c

/-- Lowercasing of a string, `String.prototype.toLowerCase` on ASCII. -/
def lowerStr (s : Str) : Str :=
  s.map lowerChar

/-- Case-insensitive character comparison (used for `/i` regex flags). -/
def charCI (a b : Char) : Bool :=
  lowerChar a = lowerChar b

/-- `String.prototype.startsWith` on the list representation. -/
def startsWithL (s p : Str) : Bool :=
  match p, s with
  | [], _ => true
  | _ :: _, [] => false
  | d :: ps, c :: cs => c = d && startsWithL cs ps

/-- Case-insensitive prefix test. -/
def startsWithCI (s p : Str) : Bool :=
  startsWithL (lowerStr s) (lowerStr p)

/-- `String.prototype.includes`: substring containment, a prefix match at
some position. -/
def containsSub : Str → Str → Bool
  | [], p => startsWithL [] p
  | c :: rest, p => startsWithL (c :: rest) p || containsSub rest p

/-- Case-insensitive substring containment (for `/i` regex tests). -/
def containsSubCI (s p : Str) : Bool :=
  containsSub (lowerStr s) (lowerStr p)

/-- `String.prototype.split` at a separator character. -/
def splitOnChar (sep : Char) : Str → List Str
  | [] => [[]]
  | c :: rest =>
    let r := splitOnChar sep rest
    if c = sep then [] :: r
    else match r with
      | [] => [[c]]
      | h :: t => (c :: h) :: t

/-- `Array.prototype.join('\n')` for line lists. -/
def joinLines : List Str → Str
  | [] => []
  | [l] => l
  | l :: rest => l ++ '\n' :: joinLines rest

/-- `String.prototype.trim()`: strip JS whitespace from both ends. -/
def trimWs (s : Str) : Str :=
  ((s.dropWhile (fun c => jsWs c)).reverse.dropWhile (fun c => jsWs c)).reverse

/-- Insert an element at the end of a list when absent, modelling the
insertion-ordered deduplication a JS `Set` performs. -/
def addUnique (l : List Str) (a : Str) : List Str :=
  if a ∈ l then l else l ++ [a]

/-- Fold `addUnique` over a list, the `Set`-then-`Array.from` idiom. -/
def dedupList (l : List Str) : List Str :=
  l.foldl addUnique []

/-- The sync direction enumeration from `src/types/doc-sync`. -/
inductive SyncDirection : Type
  | pull
  | push
  | none
deriving DecidableEq, Repr

/-- `compareSyncTimestamps` from the timestamp utility: both timestamps
are floored to whole seconds before comparison; an absent local timestamp
always yields `pull`. -/
def compareSyncTimestamps (localTs : Option Int) (notion : Int) : SyncDirection :=
  match localTs with
  | Option.none => SyncDirection.pull
  | some l =>
    let localSeconds := Int.fdiv l 1000
    let notionSeconds := Int.fdiv notion 1000
    if notionSeconds > localSeconds then SyncDirection.pull
    else if localSeconds > notionSeconds then SyncDirection.push
    else SyncDirection.none

lemma fdiv_thousand (a : Int) : Int.fdiv a 1000 = a / 1000 :=
  Int.fdiv_eq_ediv a (by norm_num)

/-- C1: `compareSyncTimestamps` yields `pull` exactly when the local
timestamp is absent or the remote timestamp is strictly later after
truncation to one-second resolution, `push` exactly when the local
timestamp is strictly later after truncation, and `none` exactly when the
two truncate to the same second; in particular an absent local timestamp
always yields `pull`. -/
theorem compareSyncTimestamps_direction_spec (t r : Int) :
    compareSyncTimestamps Option.none r = SyncDirection.pull
    ∧ (compareSyncTimestamps (some t) r = SyncDirection.pull ↔
        Int.fdiv r 1000 > Int.fdiv t 1000)
    ∧ (compareSyncTimestamps (some t) r = SyncDirection.push ↔
        Int.fdiv t 1000 > Int.fdiv r 1000)
    ∧ (compareSyncTimestamps (some t) r = SyncDirection.none ↔
        Int.fdiv t 1000 = Int.fdiv r 1000) := by
  refine ⟨rfl, ?_, ?_, ?_⟩ <;>
    (unfold compareSyncTimestamps
     simp only [fdiv_thousand]
     split_ifs with h1 h2 <;> simp_all <;> omega)

/-- C2 counterexample: the timestamps 1000 ms and 999 ms differ by 1 ms,
strictly under 1000 ms, yet `compareSyncTimestamps` classifies them as
`push`, not `none`, because the floor-to-seconds truncation puts them in
different one-second buckets. -/
theorem compareSyncTimestamps_subsecond_counterexample :
    ((1000 : Int) - 999 < 1000 ∧ (999 : Int) - 1000 < 1000)
    ∧ compareSyncTimestamps (some 1000) 999 = SyncDirection.push
    ∧ compareSyncTimestamps (some 1000) 999 ≠ SyncDirection.none := by
  refine ⟨by norm_num, by decide, by decide⟩

/-- C2 amended: `compareSyncTimestamps t t` yields `none`; any pair of
timestamps that truncate to the same whole second (which covers every
sub-second difference not crossing a second boundary) yields `none`; and
`compareSyncTimestamps (t, t+1001 ms)` yields `pull` while
`compareSyncTimestamps (t+1001 ms, t)` yields `push`, for every t. -/
theorem compareSyncTimestamps_amended (t u : Int) :
    compareSyncTimestamps (some t) t = SyncDirection.none
    ∧ (Int.fdiv t 1000 = Int.fdiv u 1000 →
        compareSyncTimestamps (some t) u = SyncDirection.none)
    ∧ compareSyncTimestamps (some t) (t + 1001) = SyncDirection.pull
    ∧ compareSyncTimestamps (some (t + 1001)) t = SyncDirection.push := by
  unfold compareSyncTimestamps
  simp only [fdiv_thousand]
  refine ⟨?_, fun h => ?_, ?_, ?_⟩ <;> split_ifs <;>
    first
    | rfl
    | omega

/-- C2 amended, witness: the amended theorem applied at t = 0, u = 999
(whose truncations agree) and at t = 0 for the 1001 ms offsets. -/
theorem compareSyncTimestamps_amended_witness :
    compareSyncTimestamps (some 0) 999 = SyncDirection.none
    ∧ compareSyncTimestamps (some 0) (0 + 1001) = SyncDirection.pull
    ∧ compareSyncTimestamps (some (0 + 1001)) 0 = SyncDirection.push :=
  ⟨(compareSyncTimestamps_amended 0 999).2.1 (by decide),
   (compareSyncTimestamps_amended 0 0).2.2.1,
   (compareSyncTimestamps_amended 0 0).2.2.2⟩

/-- The backtick character (kept out of literals for hygiene). -/
def bq : Char := Char.ofNat 96

/-- The single-quote character. -/
def sqChar : Char := Char.ofNat 39

/-- The double-quote character. -/
def dqChar : Char := Char.ofNat 34

/-- Quote characters recognized by the import/require patterns. -/
def quoteChar (c : Char) : Bool :=
  c = sqChar || c = dqChar || c = bq

/-- Fueled left-to-right global regex scan: at each position either take a
match (continuing after it, as `RegExp.exec` with the `g` flag does via
`lastIndex`) or advance one character. Every matcher consumes at least one
character, so fuel `length + 1` is always sufficient. -/
def scanGo (m : Str → Option (Str × Str)) : Nat → Str → List Str
  | 0, _ => []
  | _ + 1, [] => []
  | fuel + 1, c :: rest =>
    match m (c :: rest) with
    | some (cap, after) => cap :: scanGo m fuel after
    | Option.none => scanGo m fuel rest

/-- All captures of a global regex over a string. -/
def scanAll (m : Str → Option (Str × Str)) (s : Str) : List Str :=
  scanGo m (s.length + 1) s

/-- Shape test for the capture groups `[^X]+\.[a-zA-Z]+`: a nonempty stem,
a dot, then a nonempty trailing run of letters. -/
def innerPathShape (inner : Str) : Bool :=
  let r := inner.reverse
  let ls := r.takeWhile asciiLetter
  decide (ls ≠ []) &&
    (match r.drop ls.length with
     | c :: stem => c = '.' && decide (stem ≠ [])
     | [] => false)

/-- Matcher for pattern 1 of `extractFilePathReferences`: a backtick
code span whose body ends in a dotted extension. -/
def p1MatchAt (s : Str) : Option (Str × Str) :=
  match s with
  | c :: t =>
    if c = bq then
      let inner := t.takeWhile (fun x => x ≠ bq)
      match t.drop inner.length with
      | _ :: after => if innerPathShape inner then some (inner, after) else Option.none
      | [] => Option.none
    else Option.none
  | [] => Option.none

/-- Matcher for pattern 2: `// File: path` comment annotations. -/
def p2MatchAt (s : Str) : Option (Str × Str) :=
  match s with
  | '/' :: '/' :: t =>
    let t1 := t.dropWhile (fun c => jsWs c)
    if startsWithL t1 "File:".toList then
      let t2 := (t1.drop 5).dropWhile (fun c => jsWs c)
      let cap := t2.takeWhile (fun c => !jsWs c)
      if cap.isEmpty then Option.none else some (cap, t2.drop cap.length)
    else Option.none
  | _ => Option.none

/-- Matcher for pattern 3a: `from 'path.ext'` import clauses. -/
def p3MatchAt (s : Str) : Option (Str × Str) :=
  if startsWithL s "from".toList then
    let t := s.drop 4
    let ws := t.takeWhile (fun c => jsWs c)
    if ws.isEmpty then Option.none else
      match t.drop ws.length with
      | q :: u =>
        if quoteChar q then
          let inner := u.takeWhile (fun c => !quoteChar c)
          match u.drop inner.length with
          | _ :: after =>
            if innerPathShape inner then some (inner, after) else Option.none
          | [] => Option.none
        else Option.none
      | [] => Option.none
  else Option.none

/-- Matcher for pattern 3b: `require('path.ext')` calls. -/
def p3rMatchAt (s : Str) : Option (Str × Str) :=
  if startsWithL s "require".toList then
    let t := (s.drop 7).dropWhile (fun c => jsWs c)
    match t with
    | '(' :: u =>
      let u1 := u.dropWhile (fun c => jsWs c)
      match u1 with
      | q :: v =>
        if quoteChar q then
          let inner := v.takeWhile (fun c => !quoteChar c)
          match v.drop inner.length with
          | _ :: w =>
            if innerPathShape inner then
              match w.dropWhile (fun c => jsWs c) with
              | ')' :: after => some (inner, after)
              | _ => Option.none
            else Option.none
          | [] => Option.none
        else Option.none
      | [] => Option.none
    | _ => Option.none
  else Option.none

/-- Matcher for pattern 4: markdown links `[text](path.ext)`. -/
def p4MatchAt (s : Str) : Option (Str × Str) :=
  match s with
  | '[' :: t =>
    let inner1 := t.takeWhile (fun c => c ≠ ']')
    match t.drop inner1.length with
    | ']' :: '(' :: u =>
      let inner2 := u.takeWhile (fun c => c ≠ ')')
      match u.drop inner2.length with
      | ')' :: after => if innerPathShape inner2 then some (inner2, after) else Option.none
      | _ => Option.none
    | _ => Option.none
  | _ => Option.none

/-- Characters accepted by the path-validity regexes: letters, digits, dot, underscore, slash, hyphen. -/
def validPathChar (c : Char) : Bool :=
  asciiLetter c || asciiDigit c || c = '.' || c = '_' || c = '/' || c = '-'

/-- `isValidFilePath` from the doc mapper: requires a dotted extension,
treats `./`-relative paths specially, rejects bare dotted tokens without a
separator, and otherwise restricts the character set. -/
def isValidFilePath (p : Str) : Bool :=
  let r := p.reverse
  let ls := r.takeWhile asciiLetter
  let extOk := decide (ls ≠ []) &&
    (match r.drop ls.length with | c :: _ => c = '.' | [] => false)
  if !extOk then false
  else if startsWithL p "./".toList then
    decide (p.length > 2) && decide (p.drop 2 ≠ []) && (p.drop 2).all validPathChar
  else if (match p with | c :: _ => c = '.' | [] => false) && !p.contains '/' then
    false
  else decide (p ≠ []) && p.all validPathChar

/-- `extractFilePathReferences`: union of the four reference patterns,
each filtered through `isValidFilePath`, deduplicated in insertion
order (the JS `Set`). -/
def extractFilePathReferences (content : Str) : List Str :=
  dedupList
    (((scanAll p1MatchAt content) ++ (scanAll p2MatchAt content) ++
      (scanAll p3MatchAt content) ++ (scanAll p3rMatchAt content) ++
      (scanAll p4MatchAt content)).filter isValidFilePath)

/-- Identifier start characters: `[a-zA-Z_$]`. -/
def identStart (c : Char) : Bool :=
  asciiLetter c || c = '_' || c = '$'

/-- Identifier continuation characters: `[a-zA-Z0-9_$]`. -/
def identCont (c : Char) : Bool :=
  identStart c || asciiDigit c

/-- Matcher for function pattern 1: backtick-quoted calls like a code
span holding `name()`. -/
def f1MatchAt (s : Str) : Option (Str × Str) :=
  match s with
  | c :: d :: u =>
    if c = bq && identStart d then
      let rest := u.takeWhile identCont
      match u.drop rest.length with
      | '(' :: ')' :: e :: after =>
        if e = bq then some (d :: rest, after) else Option.none
      | _ => Option.none
    else Option.none
  | _ => Option.none

/-- Matcher for function pattern 2: `function name(` declarations. -/
def f2MatchAt (s : Str) : Option (Str × Str) :=
  if startsWithL s "function".toList then
    let t := s.drop 8
    let ws := t.takeWhile (fun c => jsWs c)
    if ws.isEmpty then Option.none else
      match t.drop ws.length with
      | d :: u =>
        if identStart d then
          let rest := u.takeWhile identCont
          match (u.drop rest.length).dropWhile (fun c => jsWs c) with
          | '(' :: after => some (d :: rest, after)
          | _ => Option.none
        else Option.none
      | [] => Option.none
  else Option.none

/-- Matcher for function pattern 3: `.name()` method calls. -/
def f3MatchAt (s : Str) : Option (Str × Str) :=
  match s with
  | '.' :: d :: u =>
    if identStart d then
      let rest := u.takeWhile identCont
      match u.drop rest.length with
      | '(' :: ')' :: after => some (d :: rest, after)
      | _ => Option.none
    else Option.none
  | _ => Option.none

/-- `extractFunctionNameReferences`: union of the three function-name
patterns, deduplicated in insertion order. -/
def extractFunctionNameReferences (content : Str) : List Str :=
  dedupList
    ((scanAll f1MatchAt content) ++ (scanAll f2MatchAt content) ++
     (scanAll f3MatchAt content))

/-- `extractBaseName`: final path segment, then everything before the
first dot; `none` when that is empty. -/
def extractBaseName (filePath : Str) : Option Str :=
  let parts := splitOnChar '/' filePath
  let fileName := parts.getLastD []
  let nameNoExt := (splitOnChar '.' fileName).headD []
  if nameNoExt.isEmpty then Option.none else some nameNoExt

/-- Camel-case splitting, `split(/(?=[A-Z])/)`: a new part starts before
every uppercase letter after the first position. -/
def splitCamelGo : Str → Str → List Str
  | cur, [] => [cur.reverse]
  | cur, c :: rest =>
    if 'A' ≤ c && c ≤ 'Z' then cur.reverse :: splitCamelGo [c] rest
    else splitCamelGo (c :: cur) rest

/-- Camel-case splitting entry point. -/
def splitCamel : Str → List Str
  | [] => [[]]
  | c :: rest => splitCamelGo [c] rest

/-- `generateSearchTerms`: the base name itself, its hyphen-delimited
segments (when more than one), and its lowercased camel-case segments
(when more than one), in `Set` insertion order. -/
def generateSearchTerms (baseName : Str) : List Str :=
  let t0 := addUnique [] baseName
  let hy := splitOnChar '-' baseName
  let t1 := if hy.length > 1 then hy.foldl addUnique t0 else t0
  let cm := splitCamel baseName
  if cm.length > 1 then (cm.map lowerStr).foldl addUnique t1 else t1

/-- `matchFilenamePatterns`: keep the candidates whose base name has a
case-insensitive substring relation (either direction) with some search
term derived from the document's base name. -/
def matchFilenamePatterns (docFilePath : Str) (availableCodeFiles : List Str) : List Str :=
  match extractBaseName docFilePath with
  | Option.none => []
  | some docBase =>
    let searchTerms := generateSearchTerms docBase
    availableCodeFiles.filter (fun codeFile =>
      match extractBaseName codeFile with
      | Option.none => false
      | some codeBase =>
        let cb := lowerStr codeBase
        searchTerms.any (fun term =>
          let tl := lowerStr term
          containsSub cb tl || containsSub tl cb))

/-- The generic root segments skipped by `extractPathParts`. -/
def genericRoot (part : Str) : Bool :=
  part = "src".toList || part = "docs".toList || part = "lib".toList ||
  part = "tests".toList || part = "test".toList

/-- `extractPathParts`: path segments that are neither generic roots nor
contain a dot (which drops the file name). -/
def extractPathParts (filePath : Str) : List Str :=
  (splitOnChar '/' filePath).filter (fun part => !genericRoot part && !part.contains '.')

/-- `hasMatchingDirectoryStructure`: both part lists nonempty and sharing
at least one segment. -/
def hasMatchingDirectoryStructure (docParts codeParts : List Str) : Bool :=
  decide (docParts ≠ []) && decide (codeParts ≠ []) &&
    docParts.any (fun p => codeParts.contains p)

/-- `matchDirectoryStructure`: candidates sharing a meaningful directory
segment with the document. -/
def matchDirectoryStructure (docFilePath : Str) (availableCodeFiles : List Str) : List Str :=
  availableCodeFiles.filter (fun codeFile =>
    hasMatchingDirectoryStructure (extractPathParts docFilePath) (extractPathParts codeFile))

/-- `similarWords`: the two words share a contiguous substring of length
at least four. -/
def similarWords (w1 w2 : Str) : Bool :=
  match w1 with
  | a :: rest =>
    (match rest with
     | b :: c :: d :: _ => containsSub w2 [a, b, c, d]
     | _ => false) || similarWords rest w2
  | [] => false

/-- The fuzzy function-name/base-name comparison used by the scorer:
case-insensitive containment in either direction, or `similarWords`. -/
def fuzzyFnMatch (funcName codeBase : Str) : Bool :=
  let fl := lowerStr funcName
  let cl := lowerStr codeBase
  containsSub fl cl || containsSub cl fl || similarWords fl cl

/-- A documentation record as in `src/types/doc-sync`. -/
structure DocumentationFile : Type where
  filePath : Str
  content : Str
  linkedCodeFiles : List Str
  mappingConfidence : Nat
deriving DecidableEq, Repr

/-- `calculateMappingConfidence`: sequential max-updates over the five
evidence checks, exactly as the source performs them; scores are in
centiunits (90 = 0.9, 85 = 0.85, 50 = 0.5, 30 = 0.3, 15 = 0.15). -/
def calculateMappingConfidence (docFile : DocumentationFile) (codeFile : Str) : Nat :=
  let c0 : Nat := 0
  let referencedPaths := extractFilePathReferences docFile.content
  let c1 := if codeFile ∈ referencedPaths then max c0 90 else c0
  let c2 := if codeFile ∈ docFile.linkedCodeFiles then max c1 85 else c1
  let functionNames := extractFunctionNameReferences docFile.content
  let c3 :=
    match extractBaseName codeFile with
    | some codeBase =>
      if functionNames.any (fun fn => fuzzyFnMatch fn codeBase) then max c2 50 else c2
    | Option.none => c2
  let c4 := if matchFilenamePatterns docFile.filePath [codeFile] ≠ [] then max c3 30 else c3
  if matchDirectoryStructure docFile.filePath [codeFile] ≠ [] then max c4 15 else c4

/-- `enhanceDocumentationFiles` on a single record: union the explicit
references (filtered to available files), filename-pattern matches and
directory matches into a deduplicated linked list, then score every
linked file against the record carrying that updated list and keep the
maximum. -/
def enhanceOne (availableCodeFiles : List Str) (docFile : DocumentationFile) : DocumentationFile :=
  let refs := (extractFilePathReferences docFile.content).filter
    (fun p => availableCodeFiles.contains p)
  let s1 := refs.foldl addUnique []
  let s2 := (matchFilenamePatterns docFile.filePath availableCodeFiles).foldl addUnique s1
  let linked := (matchDirectoryStructure docFile.filePath availableCodeFiles).foldl addUnique s2
  let maxConfidence := linked.foldl
    (fun acc f => max acc (calculateMappingConfidence { docFile with linkedCodeFiles := linked } f)) 0
  { docFile with linkedCodeFiles := linked, mappingConfidence := maxConfidence }

/-- `enhanceDocumentationFiles` over a batch. -/
def enhanceDocumentationFiles (documentationFiles : List DocumentationFile)
    (availableCodeFiles : List Str) : List DocumentationFile :=
  documentationFiles.map (enhanceOne availableCodeFiles)

/-- The five evidence checks of the confidence scorer paired with their
floor scores in centiunits: explicit reference 90, already-linked 85,
fuzzy function-name match 50, filename pattern 30, shared directory
segment 15. -/
def docEvidenceChecks (docFile : DocumentationFile) (codeFile : Str) : List (Bool × Nat) :=
  [(decide (codeFile ∈ extractFilePathReferences docFile.content), 90),
   (decide (codeFile ∈ docFile.linkedCodeFiles), 85),
   ((match extractBaseName codeFile with
     | some codeBase =>
       (extractFunctionNameReferences docFile.content).any (fun fn => fuzzyFnMatch fn codeBase)
     | Option.none => false), 50),
   (decide (matchFilenamePatterns docFile.filePath [codeFile] ≠ []), 30),
   (decide (matchDirectoryStructure docFile.filePath [codeFile] ≠ []), 15)]

/-- The maximum floor among the triggered evidence checks, 0 when none
triggers (the spec's description of the scorer). -/
def maxTriggeredFloor (docFile : DocumentationFile) (codeFile : Str) : Nat :=
  ((docEvidenceChecks docFile codeFile).filter (fun q => q.1)).foldl (fun a q => max a q.2) 0

lemma calculateMappingConfidence_spec_aux (docFile : DocumentationFile) (codeFile : Str) :
    calculateMappingConfidence docFile codeFile = maxTriggeredFloor docFile codeFile
    ∧ calculateMappingConfidence docFile codeFile ≤ 100
    ∧ (calculateMappingConfidence docFile codeFile = 0 ↔
        (docEvidenceChecks docFile codeFile).all (fun q => !q.1) = true) := by
  unfold calculateMappingConfidence maxTriggeredFloor docEvidenceChecks
  rcases h0 : extractBaseName codeFile with _ | cb
  · by_cases h1 : codeFile ∈ extractFilePathReferences docFile.content <;>
    by_cases h2 : codeFile ∈ docFile.linkedCodeFiles <;>
    by_cases h4 : matchFilenamePatterns docFile.filePath [codeFile] ≠ [] <;>
    by_cases h5 : matchDirectoryStructure docFile.filePath [codeFile] ≠ [] <;>
    simp [h0, h1, h2, h4, h5]
  · by_cases h3 : ((extractFunctionNameReferences docFile.content).any
      (fun fn => fuzzyFnMatch fn cb)) = true <;>
    by_cases h1 : codeFile ∈ extractFilePathReferences docFile.content <;>
    by_cases h2 : codeFile ∈ docFile.linkedCodeFiles <;>
    by_cases h4 : matchFilenamePatterns docFile.filePath [codeFile] ≠ [] <;>
    by_cases h5 : matchDirectoryStructure docFile.filePath [codeFile] ≠ [] <;>
    simp [h0, h1, h2, h3, h4, h5]

/-- C4: `calculateMappingConfidence` equals the maximum floor among the
evidence checks that trigger (0.9 explicit reference, 0.85 already
linked, 0.5 fuzzy function-name match, 0.3 filename pattern, 0.15 shared
directory segment, in centiunits), lies in [0, 1] (100 centiunits), and
is exactly 0 iff no check triggers. -/
theorem calculateMappingConfidence_evidence_spec (docFile : DocumentationFile) (codeFile : Str) :
    calculateMappingConfidence docFile codeFile = maxTriggeredFloor docFile codeFile
    ∧ calculateMappingConfidence docFile codeFile ≤ 100
    ∧ (calculateMappingConfidence docFile codeFile = 0 ↔
        (docEvidenceChecks docFile codeFile).all (fun q => !q.1) = true) :=
  calculateMappingConfidence_spec_aux docFile codeFile

lemma maxTriggeredFloor_le_90 (docFile : DocumentationFile) (codeFile : Str) :
    maxTriggeredFloor docFile codeFile ≤ 90 := by
  have h : ∀ (b1 b2 b3 b4 b5 : Bool),
      ((([(b1, (90 : Nat)), (b2, 85), (b3, 50), (b4, 30), (b5, 15)]).filter
        (fun q => q.1)).foldl (fun a q => max a q.2) 0) ≤ 90 := by decide
  unfold maxTriggeredFloor docEvidenceChecks
  exact h _ _ _ _ _

lemma maxTriggeredFloor_ge_90_of_ref (docFile : DocumentationFile) (codeFile : Str)
    (h : codeFile ∈ extractFilePathReferences docFile.content) :
    90 ≤ maxTriggeredFloor docFile codeFile := by
  have key : ∀ (b1 b2 b3 b4 b5 : Bool), b1 = true →
      90 ≤ ((([(b1, (90 : Nat)), (b2, 85), (b3, 50), (b4, 30), (b5, 15)]).filter
        (fun q => q.1)).foldl (fun a q => max a q.2) 0) := by decide
  unfold maxTriggeredFloor docEvidenceChecks
  exact key _ _ _ _ _ (decide_eq_true h)

lemma calculateMappingConfidence_le_90 (docFile : DocumentationFile) (codeFile : Str) :
    calculateMappingConfidence docFile codeFile ≤ 90 := by
  rw [(calculateMappingConfidence_spec_aux docFile codeFile).1]
  exact maxTriggeredFloor_le_90 docFile codeFile

lemma calculateMappingConfidence_ge_90_of_ref (docFile : DocumentationFile) (codeFile : Str)
    (h : codeFile ∈ extractFilePathReferences docFile.content) :
    90 ≤ calculateMappingConfidence docFile codeFile := by
  rw [(calculateMappingConfidence_spec_aux docFile codeFile).1]
  exact maxTriggeredFloor_ge_90_of_ref docFile codeFile h

/-- C7: the scorer is monotone under evidence addition: whatever content
change adds an extractable explicit reference to the candidate can only
raise or keep the confidence for that candidate, never lower it. -/
theorem calculateMappingConfidence_monotone_evidence (docFile : DocumentationFile)
    (codeFile : Str) (newContent : Str)
    (h : codeFile ∈ extractFilePathReferences newContent) :
    calculateMappingConfidence docFile codeFile ≤
      calculateMappingConfidence { docFile with content := newContent } codeFile :=
  le_trans (calculateMappingConfidence_le_90 docFile codeFile)
    (calculateMappingConfidence_ge_90_of_ref { docFile with content := newContent } codeFile h)

/-- C7 witness: adding the explicit reference to a concrete
document raises its confidence for that file (the reference is indeed
extracted from the new content, and the monotonicity theorem applies). -/
theorem calculateMappingConfidence_monotone_evidence_witness :
    ("src/gen.ts".toList ∈ extractFilePathReferences "See `src/gen.ts`.".toList)
    ∧ calculateMappingConfidence ⟨"docs/a.md".toList, "old text".toList, [], 0⟩ "src/gen.ts".toList ≤
        calculateMappingConfidence ⟨"docs/a.md".toList, "See `src/gen.ts`.".toList, [], 0⟩
          "src/gen.ts".toList :=
  ⟨by decide,
   calculateMappingConfidence_monotone_evidence
     ⟨"docs/a.md".toList, "old text".toList, [], 0⟩
     "src/gen.ts".toList "See `src/gen.ts`.".toList (by decide)⟩

/-- The spec's linked-files formula: deduplicated union of (a) explicit
references present among the available files, (b) filename-pattern
matches, (c) directory-structure matches. -/
def claimLinkedFiles (availableCodeFiles : List Str) (docFile : DocumentationFile) : List Str :=
  dedupList
    (((extractFilePathReferences docFile.content).filter
        (fun p => availableCodeFiles.contains p))
      ++ matchFilenamePatterns docFile.filePath availableCodeFiles
      ++ matchDirectoryStructure docFile.filePath availableCodeFiles)

/-- The confidence formula as C3 words it: the maximum of
`calculateMappingConfidence(document, f)` over the linked files, scoring
against the input document record itself. -/
def claimConfidenceOverInput (availableCodeFiles : List Str) (docFile : DocumentationFile) : Nat :=
  (claimLinkedFiles availableCodeFiles docFile).foldl
    (fun acc f => max acc (calculateMappingConfidence docFile f)) 0

/-- The confidence formula the code actually computes: the maximum of the
scores of the linked files against the record already carrying the
updated linked list. -/
def claimConfidenceOverUpdated (availableCodeFiles : List Str) (docFile : DocumentationFile) : Nat :=
  let linked := claimLinkedFiles availableCodeFiles docFile
  linked.foldl
    (fun acc f => max acc
      (calculateMappingConfidence { docFile with linkedCodeFiles := linked } f)) 0

/-- The scenario-B document: `docs/button.md` with generic content. -/
def buttonDoc : DocumentationFile :=
  ⟨"docs/button.md".toList, "Generic content".toList, [], 0⟩

/-- The scenario-B candidate code file. -/
def buttonFile : Str := "src/components/Button.tsx".toList

/-- The scenario-A document: content referencing a file and a function. -/
def scenarioADoc : DocumentationFile :=
  ⟨"docs/notes.md".toList, "See `src/gen.ts` and `gen()`.".toList, [], 0⟩

lemma enhanceOne_eq_claim (files : List Str) (d : DocumentationFile) :
    enhanceOne files d =
      { d with
        linkedCodeFiles := claimLinkedFiles files d,
        mappingConfidence := claimConfidenceOverUpdated files d } := by
  unfold enhanceOne claimConfidenceOverUpdated claimLinkedFiles dedupList
  simp [List.foldl_append]

/-- C3 counterexample: for the document `docs/button.md` with generic
content and the single available file `src/components/Button.tsx`, the
enhanced record's confidence is 85 centiunits (0.85), while the maximum
of `calculateMappingConfidence(document, f)` over the linked files, with
`document` the input record as the claim words it, is 30 centiunits
(0.3): the claimed formula does not describe the code. -/
theorem enhanceDocumentationFiles_confidence_counterexample :
    (enhanceDocumentationFiles [buttonDoc] [buttonFile]).map
        (fun d => d.mappingConfidence) = [85]
    ∧ claimConfidenceOverInput [buttonFile] buttonDoc = 30
    ∧ (85 : Nat) ≠ 30 := by decide

/-- C3 amended: each enhanced record's `linkedCodeFiles` is the
deduplicated union of explicit references filtered to the available
files, filename-pattern matches and directory-structure matches, and its
confidence is the maximum of `calculateMappingConfidence` over that list
(0 if empty) where the scored record already carries the updated linked
list (not the input record); scenario A still holds: the document
referencing `src/gen.ts` gets linkedFiles `["src/gen.ts"]` and
confidence 90 centiunits (0.9). -/
theorem enhanceDocumentationFiles_spec_amended (docs : List DocumentationFile)
    (files : List Str) :
    enhanceDocumentationFiles docs files = docs.map (fun d =>
      { d with
        linkedCodeFiles := claimLinkedFiles files d,
        mappingConfidence := claimConfidenceOverUpdated files d })
    ∧ enhanceDocumentationFiles [scenarioADoc] ["src/gen.ts".toList, "src/other.ts".toList]
      = [{ scenarioADoc with
           linkedCodeFiles := ["src/gen.ts".toList],
           mappingConfidence := 90 }] := by
  constructor
  · unfold enhanceDocumentationFiles
    exact List.map_congr_left (fun d _ => enhanceOne_eq_claim files d)
  · decide

/-- C5 counterexample: for `docs/button.md` with generic content and the
single available file `src/components/Button.tsx`, the enhanced
confidence is 85 centiunits (0.85), not the claimed 0.3. -/
theorem scenarioB_confidence_counterexample :
    (enhanceDocumentationFiles [buttonDoc] [buttonFile]).map
        (fun d => d.mappingConfidence) = [85]
    ∧ (85 : Nat) ≠ 30 := by decide

/-- C5 amended: the filename heuristic does fire (`button` is a
case-insensitive substring of `Button`), no explicit reference is
extracted, and scoring the input record alone yields exactly 30
centiunits (0.3); but the enhanced record's confidence is 85 centiunits
(0.85), because the mapper scores each linked file against the record
already carrying the updated linked list, so the already-linked floor
0.85 dominates the filename floor 0.3. -/
theorem scenarioB_amended :
    matchFilenamePatterns buttonDoc.filePath [buttonFile] = [buttonFile]
    ∧ extractFilePathReferences buttonDoc.content = []
    ∧ enhanceDocumentationFiles [buttonDoc] [buttonFile]
        = [{ buttonDoc with
             linkedCodeFiles := [buttonFile],
             mappingConfidence := 85 }]
    ∧ calculateMappingConfidence buttonDoc buttonFile = 30 := by decide

/-- The case-insensitive hex-digit class `[a-f0-9]` under the `/i` flag. -/
def isHexCI (c : Char) : Bool :=
  asciiDigit c || ('a' ≤ lowerChar c && lowerChar c ≤ 'f')

/-- Matcher for the primary page-id pattern: `pageId=` (case-insensitive)
followed by a nonempty run of hex characters, captured. -/
def pidMatchAt (s : Str) : Option Str :=
  if startsWithCI s "pageId=".toList then
    let hex := (s.drop 7).takeWhile isHexCI
    if hex.isEmpty then Option.none else some hex
  else Option.none

/-- Matcher for the alternate page-id pattern: `page`, an optional `_` or
`-`, `id`, any run of `:` or whitespace, then a nonempty hex run. -/
def pidAltMatchAt (s : Str) : Option Str :=
  if startsWithCI s "page".toList then
    let t := s.drop 4
    let t1 :=
      match t with
      | c :: rest => if c = '_' || c = '-' then rest else t
      | [] => t
    if startsWithCI t1 "id".toList then
      let u := (t1.drop 2).dropWhile (fun c => c = ':' || jsWs c)
      let hex := u.takeWhile isHexCI
      if hex.isEmpty then Option.none else some hex
    else Option.none
  else Option.none

/-- Fueled first-match scan for a non-global regex (`String.match`). -/
def findFirstGo (m : Str → Option Str) : Nat → Str → Option Str
  | 0, _ => Option.none
  | _ + 1, [] => Option.none
  | fuel + 1, c :: rest =>
    match m (c :: rest) with
    | some cap => some cap
    | Option.none => findFirstGo m fuel rest

/-- First capture of a regex over a string. -/
def findFirstCap (m : Str → Option Str) (s : Str) : Option Str :=
  findFirstGo m (s.length + 1) s

/-- `extractPageId`: the primary pattern's capture, falling back to the
alternate pattern. -/
def extractPageId (content : Str) : Option Str :=
  match findFirstCap pidMatchAt content with
  | some cap => some cap
  | Option.none => findFirstCap pidAltMatchAt content

/-- Node's `extname(name) === '.md'`: the characters after the last dot
are `md`, and that dot exists and is not the leading character. -/
def extnameIsMd (fileName : Str) : Bool :=
  let r := fileName.reverse
  let ext := r.takeWhile (fun c => c ≠ '.')
  decide (ext.length + 1 < r.length) && ext.reverse = "md".toList

/-- A local documentation file reference as `LocalDocsReader` produces. -/
structure LocalDocFile : Type where
  filePath : Str
  fileName : Str
  pageId : Str
deriving DecidableEq, Repr

/-- `readLocalDocs`, modelled over an explicit directory listing of
(file name, content) pairs: keep the `.md` files whose content yields a
page id (a read failure would likewise drop the file). -/
def readLocalDocs (docsPath : Str) (files : List (Str × Str)) : List LocalDocFile :=
  (files.filter (fun f => extnameIsMd f.1)).filterMap (fun f =>
    (extractPageId f.2).map (fun pid => ⟨docsPath ++ '/' :: f.1, f.1, pid⟩))

lemma takeWhile_sat (p : Char → Bool) (l : Str) : (l.takeWhile p).all p = true := by
  induction l with
  | nil => rfl
  | cons c t ih =>
    simp only [List.takeWhile]
    cases h : p c with
    | true => simp [h, ih]
    | false => simp

lemma pidMatchAt_hex (s cap : Str) (h : pidMatchAt s = some cap) :
    cap ≠ [] ∧ cap.all isHexCI = true := by
  unfold pidMatchAt at h
  split at h
  · simp only [] at h
    split at h
    · exact Option.noConfusion h
    · injection h with h3
      subst h3
      rename_i hne
      refine ⟨?_, takeWhile_sat _ _⟩
      intro hnil
      exact hne (by rw [hnil]; rfl)
  · exact Option.noConfusion h

lemma pidAltMatchAt_hex (s cap : Str) (h : pidAltMatchAt s = some cap) :
    cap ≠ [] ∧ cap.all isHexCI = true := by
  unfold pidAltMatchAt at h
  split at h
  · simp only [] at h
    split at h
    · split at h
      · exact Option.noConfusion h
      · injection h with h4
        subst h4
        rename_i hne
        refine ⟨?_, takeWhile_sat _ _⟩
        intro hnil
        exact hne (by rw [hnil]; rfl)
    · exact Option.noConfusion h
  · exact Option.noConfusion h

lemma findFirstGo_hex (m : Str → Option Str)
    (hm : ∀ s cap, m s = some cap → cap ≠ [] ∧ cap.all isHexCI = true) :
    ∀ fuel s cap, findFirstGo m fuel s = some cap → cap ≠ [] ∧ cap.all isHexCI = true := by
  intro fuel
  induction fuel with
  | zero =>
    intro s cap h
    simp [findFirstGo] at h
  | succ n ih =>
    intro s cap h
    cases s with
    | nil => simp [findFirstGo] at h
    | cons c rest =>
      simp only [findFirstGo] at h
      cases hm2 : m (c :: rest) with
      | some cap2 =>
        rw [hm2] at h
        injection h with h3
        subst h3
        exact hm _ _ hm2
      | none =>
        rw [hm2] at h
        exact ih rest cap h

lemma extractPageId_hex (content cap : Str) (h : extractPageId content = some cap) :
    cap ≠ [] ∧ cap.all isHexCI = true := by
  unfold extractPageId at h
  cases h1 : findFirstCap pidMatchAt content with
  | some cap2 =>
    rw [h1] at h
    injection h with h2
    subst h2
    exact findFirstGo_hex pidMatchAt pidMatchAt_hex _ _ _ h1
  | none =>
    rw [h1] at h
    exact findFirstGo_hex pidAltMatchAt pidAltMatchAt_hex _ _ _ h

/-- C9: every page id `extractPageId` captures is a nonempty run of hex
characters (case-insensitively matched); a document whose embedded
identifier begins with a non-hex character yields no capture and is
excluded from `readLocalDocs` entirely; an identifier with a non-hex
character after a hex prefix is silently truncated at that character. -/
theorem extractPageId_hex_only (content cap : Str) :
    (extractPageId content = some cap → cap ≠ [] ∧ cap.all isHexCI = true)
    ∧ extractPageId "pageId=zq12".toList = Option.none
    ∧ readLocalDocs "docs".toList [("a.md".toList, "pageId=zq12".toList)] = []
    ∧ extractPageId "pageId=abcz123".toList = some "abc".toList := by
  refine ⟨extractPageId_hex content cap, by decide, by decide, by decide⟩

/-- C9 witness: the hex-run property applied to a concrete capture. -/
theorem extractPageId_hex_only_witness :
    "ab12".toList ≠ [] ∧ "ab12".toList.all isHexCI = true :=
  (extractPageId_hex_only "pageId=ab12".toList "ab12".toList).1 (by decide)

/-- The regex `^#\s`: a hash followed by a whitespace character. -/
def startsHashWs (line : Str) : Bool :=
  match line with
  | c1 :: c2 :: _ => c1 = '#' && jsWs c2
  | _ => false

/-- The regex `^[*_]Last updated:`. -/
def startsTsMarkerLine (line : Str) : Bool :=
  match line with
  | c :: rest => (c = '*' || c = '_') && startsWithL rest "Last updated:".toList
  | [] => false

/-- The tags-line prefix test. -/
def startsTagsLine (line : Str) : Bool :=
  startsWithL line "**Tags:**".toList

/-- The line filter of `extractBodyContent`: drop any line mentioning
`pageId=` (case-insensitive, anywhere), any `#`-plus-whitespace heading,
any timestamp marker line, any tags line. -/
def keepBodyLine (line : Str) : Bool :=
  !(containsSubCI line "pageId=".toList) && !(startsHashWs line) &&
  !(startsTsMarkerLine line) && !(startsTagsLine line)

/-- The lines `extractBodyContent` keeps. -/
def bodyKeptLines (content : Str) : List Str :=
  (splitOnChar '\n' content).filter keepBodyLine

/-- `replace(/^\n+/, '')`. -/
def stripLeadingNl (s : Str) : Str :=
  s.dropWhile (fun c => c = '\n')

/-- `replace(/\n+$/, '')`. -/
def stripTrailingNl (s : Str) : Str :=
  (s.reverse.dropWhile (fun c => c = '\n')).reverse

/-- `extractBodyContent`: filter the lines, rejoin, strip outer newlines,
then trim outer whitespace. -/
def extractBodyContent (content : Str) : Str :=
  trimWs (stripTrailingNl (stripLeadingNl (joinLines (bodyKeptLines content))))

lemma startsWithL_nil_pat (s : Str) : startsWithL s [] = true := by
  cases s <;> rfl

lemma startsWithL_append_of (p : Str) :
    ∀ x y : Str, startsWithL x p = true → startsWithL (x ++ y) p = true := by
  induction p with
  | nil => intro x y _; exact startsWithL_nil_pat _
  | cons q ps ih =>
    intro x y h
    cases x with
    | nil => exact absurd h (by simp [startsWithL])
    | cons c xs =>
      simp only [List.cons_append, startsWithL, Bool.and_eq_true] at h ⊢
      exact ⟨h.1, ih xs y h.2⟩

lemma containsSub_nil_pat (s : Str) : containsSub s [] = true := by
  cases s with
  | nil => rfl
  | cons c rest => simp [containsSub, startsWithL_nil_pat]

lemma containsSub_cons_of (c : Char) (rest p : Str) (h : containsSub rest p = true) :
    containsSub (c :: rest) p = true := by
  simp [containsSub, h]

lemma containsSub_of_startsWithL (s p : Str) (h : startsWithL s p = true) :
    containsSub s p = true := by
  cases s with
  | nil => rw [containsSub]; exact h
  | cons c rest => simp [containsSub, h]

lemma containsSub_append_left (p : Str) :
    ∀ x y : Str, containsSub x p = true → containsSub (x ++ y) p = true := by
  intro x
  induction x with
  | nil =>
    intro y h
    rw [containsSub] at h
    cases p with
    | nil => exact containsSub_nil_pat y
    | cons q ps => exact absurd h (by simp [startsWithL])
  | cons c xs ih =>
    intro y h
    rw [containsSub, Bool.or_eq_true] at h
    rcases h with h | h
    · exact containsSub_of_startsWithL _ p (startsWithL_append_of p (c :: xs) y h)
    · exact containsSub_cons_of c (xs ++ y) p (ih y h)

lemma containsSub_append_right (p : Str) :
    ∀ x y : Str, containsSub y p = true → containsSub (x ++ y) p = true := by
  intro x
  induction x with
  | nil => intro y h; exact h
  | cons c xs ih => intro y h; exact containsSub_cons_of c (xs ++ y) p (ih y h)

lemma startsWithL_nl_split (t : Str) :
    ∀ p x : Str, '\n' ∉ p → startsWithL (x ++ '\n' :: t) p = true →
      startsWithL x p = true := by
  intro p
  induction p with
  | nil => intro x _ _; exact startsWithL_nil_pat _
  | cons q ps ih =>
    intro x hnl h
    cases x with
    | nil =>
      simp only [List.nil_append, startsWithL, Bool.and_eq_true] at h
      have hq : '\n' = q := by simpa using h.1
      subst hq
      exact absurd (List.mem_cons_self _ _) hnl
    | cons c xs =>
      simp only [List.cons_append, startsWithL, Bool.and_eq_true] at h ⊢
      exact ⟨h.1, ih xs (fun hm => hnl (List.mem_cons_of_mem q hm)) h.2⟩

lemma containsSub_nl_split (t p : Str) (hnl : '\n' ∉ p) (hne : p ≠ []) :
    ∀ x : Str, containsSub (x ++ '\n' :: t) p = true →
      containsSub x p = true ∨ containsSub t p = true := by
  intro x
  induction x with
  | nil =>
    intro h
    rw [List.nil_append, containsSub, Bool.or_eq_true] at h
    rcases h with h | h
    · obtain ⟨q, ps, rfl⟩ : ∃ q ps, p = q :: ps := by
        cases p with
        | nil => exact absurd rfl hne
        | cons q ps => exact ⟨q, ps, rfl⟩
      simp only [startsWithL, Bool.and_eq_true] at h
      have hq : '\n' = q := by simpa using h.1
      subst hq
      exact absurd (List.mem_cons_self _ _) hnl
    · exact Or.inr h
  | cons c xs ih =>
    intro h
    rw [List.cons_append, containsSub, Bool.or_eq_true] at h
    rcases h with h | h
    · exact Or.inl (containsSub_of_startsWithL _ p
        (startsWithL_nl_split t p (c :: xs) hnl h))
    · rcases ih h with h1 | h2
      · exact Or.inl (containsSub_cons_of c xs p h1)
      · exact Or.inr h2

lemma joinLines_occurrence (p : Str) (hnl : '\n' ∉ p) (hne : p ≠ []) :
    ∀ ls : List Str, containsSub (joinLines ls) p = true →
      ∃ l ∈ ls, containsSub l p = true := by
  intro ls
  induction ls with
  | nil =>
    intro h
    obtain ⟨q, ps, rfl⟩ : ∃ q ps, p = q :: ps := by
      cases p with
      | nil => exact absurd rfl hne
      | cons q ps => exact ⟨q, ps, rfl⟩
    rw [show joinLines [] = [] from rfl, containsSub] at h
    exact absurd h (by simp [startsWithL])
  | cons l rest ih =>
    intro h
    cases rest with
    | nil =>
      rw [show joinLines [l] = l from rfl] at h
      exact ⟨l, List.mem_cons_self l [], h⟩
    | cons r rs =>
      rw [show joinLines (l :: r :: rs) = l ++ '\n' :: joinLines (r :: rs) from rfl] at h
      rcases containsSub_nl_split (joinLines (r :: rs)) p hnl hne l h with h1 | h2
      · exact ⟨l, List.mem_cons_self l _, h1⟩
      · obtain ⟨l2, hm, hc⟩ := ih h2
        exact ⟨l2, List.mem_cons_of_mem l hm, hc⟩

lemma lowerStr_append (a b : Str) : lowerStr (a ++ b) = lowerStr a ++ lowerStr b :=
  List.map_append lowerChar a b

lemma lowerStr_joinLines : ∀ ls : List Str,
    lowerStr (joinLines ls) = joinLines (ls.map lowerStr) := by
  intro ls
  induction ls with
  | nil => rfl
  | cons l rest ih =>
    cases rest with
    | nil => rfl
    | cons r rs =>
      show lowerStr (l ++ '\n' :: joinLines (r :: rs)) =
        lowerStr l ++ '\n' :: joinLines ((r :: rs).map lowerStr)
      rw [lowerStr_append, ← ih]
      rfl

lemma containsSubCI_of_dropWhile (q : Char → Bool) (s p : Str)
    (h : containsSubCI (s.dropWhile q) p = true) : containsSubCI s p = true := by
  unfold containsSubCI at h ⊢
  have hd : s = s.takeWhile q ++ s.dropWhile q := (List.takeWhile_append_dropWhile q s).symm
  rw [hd, lowerStr_append]
  exact containsSub_append_right (lowerStr p) _ _ h

lemma containsSubCI_of_revDropWhile (q : Char → Bool) (s p : Str)
    (h : containsSubCI (s.reverse.dropWhile q).reverse p = true) :
    containsSubCI s p = true := by
  unfold containsSubCI at h ⊢
  have hd : s = (s.reverse.dropWhile q).reverse ++ (s.reverse.takeWhile q).reverse := by
    conv_lhs => rw [← List.reverse_reverse s,
      ← List.takeWhile_append_dropWhile (p := q) (l := s.reverse)]
    rw [List.reverse_append]
  rw [hd, lowerStr_append]
  exact containsSub_append_left (lowerStr p) _ _ h

lemma containsSubCI_trimWs (s p : Str) (h : containsSubCI (trimWs s) p = true) :
    containsSubCI s p = true := by
  unfold trimWs at h
  exact containsSubCI_of_dropWhile _ s p
    (containsSubCI_of_revDropWhile _ (s.dropWhile fun c => jsWs c) p h)

lemma bodyContent_no_pageId (content : Str) :
    containsSubCI (extractBodyContent content) "pageId=".toList = false := by
  cases hb : containsSubCI (extractBodyContent content) "pageId=".toList with
  | false => rfl
  | true =>
    exfalso
    have h1 : containsSubCI (joinLines (bodyKeptLines content)) "pageId=".toList = true := by
      have h2 := containsSubCI_trimWs _ _ hb
      unfold stripTrailingNl at h2
      have h3 := containsSubCI_of_revDropWhile _ _ _ h2
      unfold stripLeadingNl at h3
      exact containsSubCI_of_dropWhile _ _ _ h3
    unfold containsSubCI at h1
    rw [lowerStr_joinLines] at h1
    obtain ⟨ll, hm, hc⟩ := joinLines_occurrence (lowerStr "pageId=".toList)
      (by decide) (by decide) _ h1
    obtain ⟨l, hl, rfl⟩ := List.mem_map.mp hm
    have hk : keepBodyLine l = true := (List.mem_filter.mp hl).2
    have hci : containsSubCI l "pageId=".toList = true := hc
    unfold keepBodyLine at hk
    rw [hci] at hk
    simp at hk

/-- C10 counterexample: the input `"  # x"` has no line starting with
`"# "` and no `pageId=`, yet the returned bodyContent is `"# x"` — the
final trim strips the leading whitespace of the first kept line, so a
level-1 heading line can surface in the body pushed to the remote. -/
theorem extractBodyContent_heading_counterexample :
    extractBodyContent "  # x".toList = "# x".toList
    ∧ startsHashWs "# x".toList = true
    ∧ ("# x".toList ∈ splitOnChar '\n' (extractBodyContent "  # x".toList)) := by
  refine ⟨by decide, by decide, by decide⟩

/-- C10 amended: `extractBodyContent` removes from the kept lines every
line that starts with `#` plus whitespace and every line containing
`pageId=` (case-insensitive) anywhere — not only leading metadata lines —
and consequently the returned bodyContent contains no occurrence of
`pageId=` at all; a heading, however, can still surface as the start of
the result when an unremoved line carried leading whitespace that the
final trim strips (the heading-absence consequence holds for the kept
lines, not literally for the trimmed result). -/
theorem extractBodyContent_amended (content : Str) :
    (∀ line ∈ splitOnChar '\n' content,
        (startsHashWs line = true ∨ containsSubCI line "pageId=".toList = true) →
        line ∉ bodyKeptLines content)
    ∧ containsSubCI (extractBodyContent content) "pageId=".toList = false := by
  constructor
  · intro line _ hbad hk
    have hkeep : keepBodyLine line = true := (List.mem_filter.mp hk).2
    unfold keepBodyLine at hkeep
    simp only [Bool.and_eq_true, Bool.not_eq_true'] at hkeep
    obtain ⟨⟨⟨hpid, hhash⟩, -⟩, -⟩ := hkeep
    rcases hbad with h | h
    · rw [hhash] at h; cases h
    · rw [hpid] at h; cases h
  · exact bodyContent_no_pageId content

/-- C10 amended, witness: in a concrete document the heading line and the
pageId line are removed from the kept lines, and the result carries no
`pageId=`. -/
theorem extractBodyContent_amended_witness :
    ("# Title".toList ∉ bodyKeptLines "pageId=abc\n# Title\nbody".toList)
    ∧ containsSubCI (extractBodyContent "pageId=abc\n# Title\nbody".toList)
        "pageId=".toList = false :=
  ⟨(extractBodyContent_amended "pageId=abc\n# Title\nbody".toList).1
      "# Title".toList (by decide) (Or.inl (by decide)),
   (extractBodyContent_amended "pageId=abc\n# Title\nbody".toList).2⟩

/-- Full metadata of a local document, as in `src/types/doc-sync`. -/
structure LocalDocMetadata : Type where
  pageId : Str
  title : Str
  lastUpdated : Option Int
  tags : List Str
  bodyContent : Str
  rawContent : Str
  filePath : Str
  fileName : Str
deriving DecidableEq, Repr

/-- A planned per-document sync action. -/
structure SyncAction : Type where
  pageId : Str
  filePath : Str
  fileName : Str
  direction : SyncDirection
  localTimestamp : Option Int
  notionTimestamp : Int
deriving DecidableEq, Repr

/-- The outcome record of one executed action. -/
structure SyncResult : Type where
  pageId : Str
  fileName : Str
  direction : SyncDirection
  success : Bool
  error : Option Str
  synchronizedTimestamp : Option Int
deriving DecidableEq, Repr

/-- A remote document as the content-store collaborator returns it. -/
structure NotionDoc : Type where
  id : Str
  title : Str
  content : Str
  tags : List Str
  lastModified : Int
deriving DecidableEq, Repr

/-- The external collaborators of the sync command, modelled as explicit
fallible functions (each remote or file-system call either yields a value
or raises an error message). -/
structure SyncEnv : Type where
  readFullDoc : LocalDocFile → Except Str LocalDocMetadata
  fetchPageLastEdited : Str → Except Str Int
  fetchPagesByIds : List Str → Except Str (List NotionDoc)
  updateLocalDocs : List NotionDoc → Except Str Unit
  convertToBlocks : Str → List Str
  replacePageContent : Str → List Str → Except Str Unit
  updateTimestampOnly : Str → Int → Except Str Unit

/-- Planning for one document: read its metadata, fetch the remote last
edit time, classify the direction; any failure surfaces as an error. -/
def planOne (env : SyncEnv) (d : LocalDocFile) : Except Str SyncAction :=
  match env.readFullDoc d with
  | Except.error e => Except.error e
  | Except.ok md =>
    match env.fetchPageLastEdited d.pageId with
    | Except.error e => Except.error e
    | Except.ok ts =>
      Except.ok
        ⟨d.pageId, d.filePath, d.fileName,
         compareSyncTimestamps md.lastUpdated ts, md.lastUpdated, ts⟩

/-- The planning loop of `syncCommand`: one action per document whose
reads succeed; a per-document failure is logged (collected here) and the
document is skipped, without aborting the remaining documents. -/
def planActions (env : SyncEnv) : List LocalDocFile → List SyncAction × List Str
  | [] => ([], [])
  | d :: ds =>
    let rest := planActions env ds
    match planOne env d with
    | Except.ok a => (a :: rest.1, rest.2)
    | Except.error e => (rest.1, e :: rest.2)

/-- Execution of a single planned action: `none` records a trivial
success; `pull` fetches the remote document and overwrites the local
file; `push` rebuilds the remote content, re-fetches the post-write
timestamp and updates the local marker; any failure in the branch turns
into a failure result carrying the error message. -/
def execOne (env : SyncEnv) (action : SyncAction) : SyncResult :=
  match action.direction with
  | SyncDirection.none =>
    ⟨action.pageId, action.fileName, SyncDirection.none, true, Option.none, Option.none⟩
  | SyncDirection.pull =>
    let attempt : Except Str Unit :=
      match env.fetchPagesByIds [action.pageId] with
      | Except.error e => Except.error e
      | Except.ok docs =>
        if docs.length > 0 then env.updateLocalDocs docs else Except.ok ()
    match attempt with
    | Except.ok _ =>
      ⟨action.pageId, action.fileName, SyncDirection.pull, true, Option.none,
        some action.notionTimestamp⟩
    | Except.error e =>
      ⟨action.pageId, action.fileName, SyncDirection.pull, false, some e, Option.none⟩
  | SyncDirection.push =>
    let attempt : Except Str Int :=
      match env.readFullDoc ⟨action.filePath, action.fileName, action.pageId⟩ with
      | Except.error e => Except.error e
      | Except.ok md =>
        match env.replacePageContent action.pageId (env.convertToBlocks md.bodyContent) with
        | Except.error e => Except.error e
        | Except.ok _ =>
          match env.fetchPageLastEdited action.pageId with
          | Except.error e => Except.error e
          | Except.ok newTs =>
            match env.updateTimestampOnly action.filePath newTs with
            | Except.error e => Except.error e
            | Except.ok _ => Except.ok newTs
    match attempt with
    | Except.ok newTs =>
      ⟨action.pageId, action.fileName, SyncDirection.push, true, Option.none, some newTs⟩
    | Except.error e =>
      ⟨action.pageId, action.fileName, SyncDirection.push, false, some e, Option.none⟩

/-- The execution loop: one result per action, in order. -/
def executeActions (env : SyncEnv) : List SyncAction → List SyncResult
  | [] => []
  | a :: rest => execOne env a :: executeActions env rest

lemma planActions_fst (env : SyncEnv) : ∀ docs : List LocalDocFile,
    (planActions env docs).1 = docs.filterMap (fun d => (planOne env d).toOption) := by
  intro docs
  induction docs with
  | nil => rfl
  | cons d ds ih =>
    simp only [planActions, List.filterMap_cons]
    cases h : planOne env d <;> simp [h, Except.toOption, ih]

lemma planActions_snd (env : SyncEnv) : ∀ docs : List LocalDocFile,
    (planActions env docs).2 = docs.filterMap (fun d =>
      match planOne env d with
      | Except.error e => some e
      | Except.ok _ => Option.none) := by
  intro docs
  induction docs with
  | nil => rfl
  | cons d ds ih =>
    simp only [planActions, List.filterMap_cons]
    cases h : planOne env d <;> simp [h, ih]

lemma executeActions_eq_map (env : SyncEnv) : ∀ acts : List SyncAction,
    executeActions env acts = acts.map (execOne env) := by
  intro acts
  induction acts with
  | nil => rfl
  | cons a rest ih => simp [executeActions, ih]

/-- The first demo document of scenario D. -/
def demoDocA : LocalDocFile :=
  ⟨"docs/a.md".toList, "a.md".toList, "aaa111".toList⟩

/-- The second demo document of scenario D, whose metadata read throws. -/
def demoDocB : LocalDocFile :=
  ⟨"docs/b.md".toList, "b.md".toList, "bbb222".toList⟩

/-- The metadata the demo environment returns for readable documents. -/
def demoMetaA : LocalDocMetadata :=
  ⟨"aaa111".toList, "A".toList, some 1000, [], "Body".toList, "raw".toList,
   "docs/a.md".toList, "a.md".toList⟩

/-- Scenario-D environment: reading `b.md` fails, everything else is
healthy. -/
def demoEnv : SyncEnv where
  readFullDoc d :=
    if d.fileName = "b.md".toList then Except.error "metadata read failed".toList
    else Except.ok demoMetaA
  fetchPageLastEdited _ := Except.ok 5000
  fetchPagesByIds _ := Except.ok []
  updateLocalDocs _ := Except.ok ()
  convertToBlocks md := if md.isEmpty then [] else [md]
  replacePageContent _ _ := Except.ok ()
  updateTimestampOnly _ _ := Except.ok ()

/-- The single action scenario D plans (a pull: 1000 ms is older than
5000 ms). -/
def demoActionA : SyncAction :=
  ⟨"aaa111".toList, "docs/a.md".toList, "a.md".toList, SyncDirection.pull, some 1000, 5000⟩

/-- Execution-phase demo environment: replacing the content of page `x1`
fails with a network error, everything else is healthy. -/
def demoEnv2 : SyncEnv where
  readFullDoc _ := Except.ok demoMetaA
  fetchPageLastEdited _ := Except.ok 7000
  fetchPagesByIds _ := Except.ok []
  updateLocalDocs _ := Except.ok ()
  convertToBlocks md := if md.isEmpty then [] else [md]
  replacePageContent pid _ :=
    if pid = "x1".toList then Except.error "network down".toList else Except.ok ()
  updateTimestampOnly _ _ := Except.ok ()

/-- A planned push action against the failing page. -/
def demoAct1 : SyncAction :=
  ⟨"x1".toList, "docs/a.md".toList, "a.md".toList, SyncDirection.push, some 9000, 7000⟩

/-- A planned no-op action for a healthy page. -/
def demoAct2 : SyncAction :=
  ⟨"y2".toList, "docs/b.md".toList, "b.md".toList, SyncDirection.none, some 1, 1⟩

/-- C8: batch failure isolation. Planning keeps exactly the documents
whose metadata read and remote fetch succeed and logs one error per
failing document; execution produces one result per planned action,
independently per action, a failing action yielding a failure result
carrying its error message. Concretely: with two documents where one
metadata read throws, planning yields exactly one action and one logged
error; and with one failing and one healthy action, execution yields a
failure record with the error message followed by the remaining
successful record — nothing propagates out of either loop. -/
theorem syncBatch_failure_isolation (env : SyncEnv) (docs : List LocalDocFile)
    (acts : List SyncAction) :
    (planActions env docs).1 = docs.filterMap (fun d => (planOne env d).toOption)
    ∧ (planActions env docs).2 = docs.filterMap (fun d =>
        match planOne env d with
        | Except.error e => some e
        | Except.ok _ => Option.none)
    ∧ executeActions env acts = acts.map (execOne env)
    ∧ planActions demoEnv [demoDocA, demoDocB]
        = ([demoActionA], ["metadata read failed".toList])
    ∧ executeActions demoEnv2 [demoAct1, demoAct2]
        = [⟨"x1".toList, "a.md".toList, SyncDirection.push, false,
             some "network down".toList, Option.none⟩,
           ⟨"y2".toList, "b.md".toList, SyncDirection.none, true,
             Option.none, Option.none⟩] := by
  refine ⟨planActions_fst env docs, planActions_snd env docs,
    executeActions_eq_map env acts, by decide, by decide⟩

/-- A JS `Date` represented by its canonical UTC calendar components
(year, month 1-12, day, hour, minute, second, millisecond). A time value
and its canonical component tuple determine each other, so equality of
components is equality of dates. -/
structure IsoDate : Type where
  year : Int
  month : Nat
  day : Nat
  hour : Nat
  minute : Nat
  second : Nat
  ms : Nat
deriving DecidableEq, Repr

/-- Leap-year rule of the proleptic Gregorian calendar. -/
def isLeapYear (y : Int) : Bool :=
  (y % 4 = 0 && decide (y % 100 ≠ 0)) || y % 400 = 0

/-- Days in a month (month 1-12). -/
def daysInMonth (y : Int) (m : Nat) : Nat :=
  if m = 2 then (if isLeapYear y then 29 else 28)
  else if m = 4 || m = 6 || m = 9 || m = 11 then 30
  else 31

/-- The component tuple of an actual `Date`: component ranges plus the
year range representable by a JS time value. -/
def ValidIsoDate (d : IsoDate) : Prop :=
  1 ≤ d.month ∧ d.month ≤ 12 ∧ 1 ≤ d.day ∧ d.day ≤ daysInMonth d.year d.month ∧
  d.hour ≤ 23 ∧ d.minute ≤ 59 ∧ d.second ≤ 59 ∧ d.ms ≤ 999 ∧
  -271821 ≤ d.year ∧ d.year ≤ 275760

instance (d : IsoDate) : Decidable (ValidIsoDate d) := by
  unfold ValidIsoDate
  infer_instance

/-- The character for a decimal digit value. -/
def digitChar (n : Nat) : Char :=
  Char.ofNat (48 + n)

/-- Two-digit zero-padded decimal rendering. -/
def pad2 (n : Nat) : Str :=
  [digitChar (n / 10 % 10), digitChar (n % 10)]

/-- Three-digit zero-padded decimal rendering. -/
def pad3 (n : Nat) : Str :=
  [digitChar (n / 100 % 10), digitChar (n / 10 % 10), digitChar (n % 10)]

/-- Four-digit zero-padded decimal rendering. -/
def pad4 (n : Nat) : Str :=
  [digitChar (n / 1000 % 10), digitChar (n / 100 % 10),
   digitChar (n / 10 % 10), digitChar (n % 10)]

/-- Six-digit zero-padded decimal rendering. -/
def pad6 (n : Nat) : Str :=
  [digitChar (n / 100000 % 10), digitChar (n / 10000 % 10),
   digitChar (n / 1000 % 10), digitChar (n / 100 % 10),
   digitChar (n / 10 % 10), digitChar (n % 10)]

/-- The year field of `toISOString`: four digits for years 0-9999, the
expanded six-digit form with an explicit sign otherwise. -/
def isoYearPart (y : Int) : Str :=
  if 0 ≤ y ∧ y ≤ 9999 then pad4 y.toNat
  else if y > 9999 then '+' :: pad6 y.toNat
  else '-' :: pad6 (-y).toNat

/-- The month-through-millisecond tail of `toISOString`:
`-MM-DDTHH:mm:ss.sssZ` (written right-nested for the parsing proofs;
the string is the usual one). -/
def isoTail (d : IsoDate) : Str :=
  '-' :: (pad2 d.month ++ ('-' :: (pad2 d.day ++ ('T' :: (pad2 d.hour ++
    (':' :: (pad2 d.minute ++ (':' :: (pad2 d.second ++
    ('.' :: (pad3 d.ms ++ ['Z'])))))))))))

/-- `Date.prototype.toISOString` on canonical components:
`YYYY-MM-DDTHH:mm:ss.sssZ`. -/
def isoFormat (d : IsoDate) : Str :=
  isoYearPart d.year ++ isoTail d

/-- `formatTimestamp` from the timestamp utility. -/
def formatTimestamp (d : IsoDate) : Str :=
  isoFormat d

/-- `buildTimestampLine`. -/
def buildTimestampLine (d : IsoDate) : Str :=
  "*Last updated: ".toList ++ formatTimestamp d ++ ['*']

/-- Decimal digit value of a character. -/
def digitVal (c : Char) : Option Nat :=
  if asciiDigit c then some (c.toNat - 48) else Option.none

/-- Parse exactly two decimal digits. -/
def parse2 (s : Str) : Option (Nat × Str) :=
  match s with
  | a :: b :: rest =>
    match digitVal a, digitVal b with
    | some x, some y => some (10 * x + y, rest)
    | _, _ => Option.none
  | _ => Option.none

/-- Parse exactly three decimal digits. -/
def parse3 (s : Str) : Option (Nat × Str) :=
  match s with
  | a :: b :: c :: rest =>
    match digitVal a, digitVal b, digitVal c with
    | some x, some y, some z => some (100 * x + 10 * y + z, rest)
    | _, _, _ => Option.none
  | _ => Option.none

/-- Parse exactly four decimal digits. -/
def parse4 (s : Str) : Option (Nat × Str) :=
  match s with
  | a :: b :: c :: d :: rest =>
    match digitVal a, digitVal b, digitVal c, digitVal d with
    | some x, some y, some z, some w => some (1000 * x + 100 * y + 10 * z + w, rest)
    | _, _, _, _ => Option.none
  | _ => Option.none

/-- Parse exactly six decimal digits. -/
def parse6 (s : Str) : Option (Nat × Str) :=
  match s with
  | a :: b :: c :: d :: e :: f :: rest =>
    match digitVal a, digitVal b, digitVal c, digitVal d, digitVal e, digitVal f with
    | some x, some y, some z, some w, some v, some u =>
      some (100000 * x + 10000 * y + 1000 * z + 100 * w + 10 * v + u, rest)
    | _, _, _, _, _, _ => Option.none
  | _ => Option.none

/-- The time-of-day tail of the ISO date-time grammar:
`HH:mm:ss.sssZ` with the ECMA range checks. -/
def parseTimePart (y : Int) (mo da : Nat) (r : Str) : Option IsoDate :=
  match parse2 r with
  | Option.none => Option.none
  | some (hh, r7) =>
    if hh ≤ 23 then
      match r7 with
      | ':' :: r8 =>
        match parse2 r8 with
        | Option.none => Option.none
        | some (mi, r9) =>
          if mi ≤ 59 then
            match r9 with
            | ':' :: r10 =>
              match parse2 r10 with
              | Option.none => Option.none
              | some (ss, r11) =>
                if ss ≤ 59 then
                  match r11 with
                  | '.' :: r12 =>
                    match parse3 r12 with
                    | Option.none => Option.none
                    | some (msv, r13) =>
                      match r13 with
                      | ['Z'] => some ⟨y, mo, da, hh, mi, ss, msv⟩
                      | _ => Option.none
                  | _ => Option.none
                else Option.none
            | _ => Option.none
          else Option.none
      | _ => Option.none
    else Option.none

/-- The month-day tail of the ISO grammar after the year, covering the
full date-time form and the legacy date-only `YYYY-MM-DD` form (which JS
reads as UTC midnight). -/
def parseYmd (y : Int) (r : Str) : Option IsoDate :=
  match r with
  | '-' :: r2 =>
    match parse2 r2 with
    | Option.none => Option.none
    | some (mo, r3) =>
      if 1 ≤ mo ∧ mo ≤ 12 then
        match r3 with
        | '-' :: r4 =>
          match parse2 r4 with
          | Option.none => Option.none
          | some (da, r5) =>
            if 1 ≤ da ∧ da ≤ 31 then
              match r5 with
              | [] => some ⟨y, mo, da, 0, 0, 0, 0⟩
              | 'T' :: r6 => parseTimePart y mo da r6
              | _ => Option.none
            else Option.none
        | _ => Option.none
      else Option.none
  | _ => Option.none

/-- `new Date(string)` restricted to the formats this program writes and
reads: the ECMA Date Time String Format `YYYY-MM-DDTHH:mm:ss.sssZ`
(including expanded six-digit years with an explicit sign) and the legacy
date-only `YYYY-MM-DD`. Any other string — in particular anything not
beginning with a digit or a sign — is an invalid date, as in the
engines this code runs on. -/
def jsParseDate (s : Str) : Option IsoDate :=
  match s with
  | [] => Option.none
  | c :: rest =>
    if c = '+' then
      match parse6 rest with
      | Option.none => Option.none
      | some (y, r) => parseYmd (y : Int) r
    else if c = '-' then
      match parse6 rest with
      | Option.none => Option.none
      | some (y, r) => parseYmd (-(y : Int)) r
    else
      match parse4 (c :: rest) with
      | Option.none => Option.none
      | some (y, r) => parseYmd (y : Int) r

/-- The literal head of the timestamp marker regex. -/
def tsLiteral : Str := "*Last updated:".toList

/-- The lazy group scan of `(.+?)\*`: extend the group one character at
a time (each must match `.`), closing at the first `*`. -/
def lazyScan (acc : Str) : Str → Option (Str × Str)
  | [] => Option.none
  | x :: xs =>
    if x = '*' then some (acc.reverse, xs)
    else if jsDot x then lazyScan (x :: acc) xs
    else Option.none

/-- One attempt of `\s*(.+?)\*` with the whitespace run fixed at `n`
characters: the group starts at offset `n` with at least one `.`
character and closes at the first following `*`. Returns the consumed
characters, the group and the remainder. -/
def tsAttempt (n : Nat) (s : Str) : Option (Str × Str × Str) :=
  match s.drop n with
  | c :: rest =>
    if jsDot c then
      match lazyScan [c] rest with
      | some (g, rest2) => some (s.take n ++ g ++ ['*'], g, rest2)
      | Option.none => Option.none
    else Option.none
  | [] => Option.none

/-- Greedy backtracking over the `\s*` length: try the longest
whitespace run first, shrinking on failure. -/
def tsTryNs : Nat → Str → Option (Str × Str × Str)
  | n, s =>
    match tsAttempt n s with
    | some r => some r
    | Option.none =>
      match n with
      | 0 => Option.none
      | m + 1 => tsTryNs m s

/-- A match of the whole marker regex at the start of `s`: the literal,
then `\s*(.+?)\*` with greedy whitespace and lazy group. Returns the
matched region, the group and the remainder. -/
def tsMatchAt (s : Str) : Option (Str × Str × Str) :=
  if startsWithL s tsLiteral then
    let tail := s.drop 14
    match tsTryNs ((tail.takeWhile (fun c => jsWs c)).length) tail with
    | some (consumed, g, rest) => some (tsLiteral ++ consumed, g, rest)
    | Option.none => Option.none
  else Option.none

/-- Leftmost-match scan of the marker regex: try each position in turn.
Returns (prefix before the match, matched region, group, remainder). -/
def tsFindGo : Nat → Str → Option (Str × Str × Str × Str)
  | 0, _ => Option.none
  | _ + 1, [] => Option.none
  | fuel + 1, c :: rest =>
    match tsMatchAt (c :: rest) with
    | some (m, g, r) => some ([], m, g, r)
    | Option.none =>
      match tsFindGo fuel rest with
      | some (p, m, g, r) => some (c :: p, m, g, r)
      | Option.none => Option.none

/-- First match of the timestamp marker regex over a string. -/
def tsFind (s : Str) : Option (Str × Str × Str × Str) :=
  tsFindGo (s.length + 1) s

/-- `parseTimestamp`: locate the marker, take the group, trim it, parse
it as a date; absent marker, empty group or unparseable date give
`none`. -/
def parseTimestamp (content : Str) : Option IsoDate :=
  match tsFind content with
  | Option.none => Option.none
  | some (_, _, g, _) =>
    if g.isEmpty then Option.none else jsParseDate (trimWs g)

/-- `replaceTimestampInContent`: when the marker matches, splice a fresh
timestamp line over the matched region (the replacement text contains no
`$` patterns, so JS `replace` inserts it verbatim); otherwise return the
content unchanged. -/
def replaceTimestampInContent (content : Str) (newDate : IsoDate) : Str :=
  match tsFind content with
  | Option.none => content
  | some (pre, _, _, rest) => pre ++ buildTimestampLine newDate ++ rest

lemma digitVal_digitChar (k : Nat) (h : k < 10) : digitVal (digitChar k) = some k := by
  have key : ∀ m, m < 10 → digitVal (digitChar m) = some m := by decide
  exact key k h

lemma digitChar_ne_plus (k : Nat) (h : k < 10) : digitChar k ≠ '+' := by
  have key : ∀ m, m < 10 → digitChar m ≠ '+' := by decide
  exact key k h

lemma digitChar_ne_minus (k : Nat) (h : k < 10) : digitChar k ≠ '-' := by
  have key : ∀ m, m < 10 → digitChar m ≠ '-' := by decide
  exact key k h

lemma mod_ten_lt (n : Nat) : n % 10 < 10 := Nat.mod_lt _ (by norm_num)

lemma parse2_pad2 (n : Nat) (r : Str) (h : n ≤ 99) : parse2 (pad2 n ++ r) = some (n, r) := by
  have e : 10 * (n / 10 % 10) + n % 10 = n := by omega
  simp [pad2, parse2, digitVal_digitChar _ (mod_ten_lt _), e]

lemma parse3_pad3 (n : Nat) (r : Str) (h : n ≤ 999) : parse3 (pad3 n ++ r) = some (n, r) := by
  have e : 100 * (n / 100 % 10) + 10 * (n / 10 % 10) + n % 10 = n := by omega
  simp [pad3, parse3, digitVal_digitChar _ (mod_ten_lt _), e]

lemma parse4_pad4 (n : Nat) (r : Str) (h : n ≤ 9999) : parse4 (pad4 n ++ r) = some (n, r) := by
  have e : 1000 * (n / 1000 % 10) + 100 * (n / 100 % 10) + 10 * (n / 10 % 10) + n % 10 = n := by
    omega
  simp [pad4, parse4, digitVal_digitChar _ (mod_ten_lt _), e]

lemma parse6_pad6 (n : Nat) (r : Str) (h : n ≤ 999999) : parse6 (pad6 n ++ r) = some (n, r) := by
  have e : 100000 * (n / 100000 % 10) + 10000 * (n / 10000 % 10) + 1000 * (n / 1000 % 10) +
      100 * (n / 100 % 10) + 10 * (n / 10 % 10) + n % 10 = n := by omega
  simp [pad6, parse6, digitVal_digitChar _ (mod_ten_lt _), e]


lemma parseYmd_iso_tail (d : IsoDate) (hmo1 : 1 ≤ d.month) (hmo2 : d.month ≤ 12)
    (hda1 : 1 ≤ d.day) (hda31 : d.day ≤ 31) (hhh : d.hour ≤ 23) (hmi : d.minute ≤ 59)
    (hss : d.second ≤ 59) (hms : d.ms ≤ 999) (y0 : Int) :
    parseYmd y0 (isoTail d) =
      some ⟨y0, d.month, d.day, d.hour, d.minute, d.second, d.ms⟩ := by
  rw [isoTail, parseYmd, parse2_pad2 _ _ (by omega)]
  simp only []
  rw [if_pos ⟨hmo1, hmo2⟩, parse2_pad2 _ _ (by omega)]
  simp only []
  rw [if_pos ⟨hda1, hda31⟩]
  rw [parseTimePart, parse2_pad2 _ _ (by omega)]
  simp only []
  rw [if_pos hhh, parse2_pad2 _ _ (by omega)]
  simp only []
  rw [if_pos hmi, parse2_pad2 _ _ (by omega)]
  simp only []
  rw [if_pos hss, parse3_pad3 _ _ (by omega)]
  rfl

lemma jsParseDate_isoFormat (d : IsoDate) (h : ValidIsoDate d) :
    jsParseDate (isoFormat d) = some d := by
  obtain ⟨hmo1, hmo2, hda1, hda2, hhh, hmi, hss, hms, hy1, hy2⟩ := h
  have hda31 : d.day ≤ 31 :=
    le_trans hda2 (by unfold daysInMonth; split_ifs <;> norm_num)
  have tailEq := parseYmd_iso_tail d hmo1 hmo2 hda1 hda31 hhh hmi hss hms
  unfold isoFormat isoYearPart
  by_cases hy : 0 ≤ d.year ∧ d.year ≤ 9999
  · rw [if_pos hy]
    have hn : d.year.toNat ≤ 9999 := by omega
    simp only [pad4, List.cons_append, List.nil_append]
    rw [jsParseDate]
    rw [if_neg (digitChar_ne_plus _ (mod_ten_lt _)),
      if_neg (digitChar_ne_minus _ (mod_ten_lt _))]
    rw [show (digitChar (d.year.toNat / 1000 % 10) :: digitChar (d.year.toNat / 100 % 10) ::
      digitChar (d.year.toNat / 10 % 10) :: digitChar (d.year.toNat % 10) ::
      isoTail d : Str) = pad4 d.year.toNat ++ isoTail d from by simp [pad4]]
    rw [parse4_pad4 _ _ hn]
    simp only []
    rw [show ((d.year.toNat : Int)) = d.year from Int.toNat_of_nonneg hy.1]
    exact tailEq d.year
  · by_cases hy9 : d.year > 9999
    · rw [if_neg hy, if_pos hy9]
      have hn : d.year.toNat ≤ 999999 := by omega
      simp only [List.cons_append]
      rw [jsParseDate, if_pos rfl, parse6_pad6 _ _ hn]
      simp only []
      rw [show ((d.year.toNat : Int)) = d.year from Int.toNat_of_nonneg (by omega)]
      exact tailEq d.year
    · rw [if_neg hy, if_neg hy9]
      have hn : (-d.year).toNat ≤ 999999 := by omega
      simp only [List.cons_append]
      rw [jsParseDate, if_neg (by decide), if_pos rfl, parse6_pad6 _ _ hn]
      simp only []
      rw [show (((-d.year).toNat : Int)) = -d.year from Int.toNat_of_nonneg (by omega),
        show (-(-d.year)) = d.year from by omega]
      exact tailEq d.year

lemma startsWithL_self_append : ∀ p x : Str, startsWithL (p ++ x) p = true := by
  intro p
  induction p with
  | nil => intro x; exact startsWithL_nil_pat x
  | cons c ps ih => intro x; simp [startsWithL, ih]

lemma startsWithL_prefix_long : ∀ (p a b : Str), startsWithL (a ++ b) p = true →
    p.length ≤ a.length → startsWithL a p = true := by
  intro p
  induction p with
  | nil => intro a b _ _; exact startsWithL_nil_pat a
  | cons q ps ih =>
    intro a b h hlen
    cases a with
    | nil => simp at hlen
    | cons c as =>
      simp only [List.cons_append, startsWithL, Bool.and_eq_true] at h ⊢
      exact ⟨h.1, ih as b h.2 (by simpa using hlen)⟩

lemma startsWithL_append_mid : ∀ (p a u : Str), startsWithL (a ++ u) p = true →
    a.length < p.length → startsWithL u (p.drop a.length) = true := by
  intro p
  induction p with
  | nil => intro a u _ hlen; simp at hlen
  | cons q ps ih =>
    intro a u h hlen
    cases a with
    | nil => simpa using h
    | cons c as =>
      simp only [List.cons_append, startsWithL, Bool.and_eq_true] at h
      simpa using ih as u h.2 (by simpa using hlen)

lemma containsSub_of_drop (p : Str) : ∀ (s : Str) (k : Nat),
    startsWithL (s.drop k) p = true → containsSub s p = true := by
  intro s
  induction s with
  | nil =>
    intro k h
    simp only [List.drop_nil] at h
    exact containsSub_of_startsWithL [] p h
  | cons c rest ih =>
    intro k h
    cases k with
    | zero => exact containsSub_of_startsWithL _ p h
    | succ k2 => exact containsSub_cons_of c rest p (ih k2 h)

/-- Characters of a formatted ISO timestamp: matched by `.`, not a `*`,
not whitespace. -/
def isoCleanChar (c : Char) : Bool :=
  jsDot c && !(c = '*') && !(jsWs c)

lemma isoCleanChar_digitChar (k : Nat) (h : k < 10) : isoCleanChar (digitChar k) = true := by
  have key : ∀ m, m < 10 → isoCleanChar (digitChar m) = true := by decide
  exact key k h

lemma pad2_clean (n : Nat) : (pad2 n).all isoCleanChar = true := by
  simp [pad2, isoCleanChar_digitChar _ (mod_ten_lt _)]

lemma pad3_clean (n : Nat) : (pad3 n).all isoCleanChar = true := by
  simp [pad3, isoCleanChar_digitChar _ (mod_ten_lt _)]

lemma pad4_clean (n : Nat) : (pad4 n).all isoCleanChar = true := by
  simp [pad4, isoCleanChar_digitChar _ (mod_ten_lt _)]

lemma pad6_clean (n : Nat) : (pad6 n).all isoCleanChar = true := by
  simp [pad6, isoCleanChar_digitChar _ (mod_ten_lt _)]

lemma isoYearPart_clean (y : Int) : (isoYearPart y).all isoCleanChar = true := by
  unfold isoYearPart
  split_ifs <;> simp [pad4_clean, pad6_clean] <;> decide

lemma isoTail_clean (d : IsoDate) : (isoTail d).all isoCleanChar = true := by
  unfold isoTail
  simp [List.all_append, pad2_clean, pad3_clean]
  refine ⟨by decide, by decide, by decide, by decide, by decide⟩

lemma isoFormat_clean (d : IsoDate) : (isoFormat d).all isoCleanChar = true := by
  unfold isoFormat
  simp [List.all_append, isoYearPart_clean, isoTail_clean]

lemma isoYearPart_cons (y : Int) : ∃ c t, isoYearPart y = c :: t := by
  unfold isoYearPart
  split_ifs <;> exact ⟨_, _, rfl⟩

lemma isoFormat_cons (d : IsoDate) : ∃ c t, isoFormat d = c :: t := by
  obtain ⟨c, t, h⟩ := isoYearPart_cons d.year
  exact ⟨c, t ++ isoTail d, by simp [isoFormat, h]⟩

lemma lazyScan_clean : ∀ (seg : Str) (acc r : Str), seg.all isoCleanChar = true →
    lazyScan acc (seg ++ '*' :: r) = some (acc.reverse ++ seg, r) := by
  intro seg
  induction seg with
  | nil =>
    intro acc r _
    simp [lazyScan]
  | cons c seg2 ih =>
    intro acc r hall
    simp only [List.all_cons, Bool.and_eq_true] at hall
    have hclean := hall.1
    simp only [isoCleanChar, Bool.and_eq_true, Bool.not_eq_true'] at hclean
    rw [List.cons_append, lazyScan]
    rw [if_neg (by simpa using hclean.1.2), if_pos hclean.1.1]
    rw [ih (c :: acc) r hall.2]
    simp

lemma dropWhile_of_all_not (p : Char → Bool) : ∀ s : Str,
    s.all (fun c => !p c) = true → s.dropWhile p = s := by
  intro s
  induction s with
  | nil => intro _; rfl
  | cons c rest _ =>
    intro h
    simp only [List.all_cons, Bool.and_eq_true, Bool.not_eq_true'] at h
    simp [List.dropWhile, h.1]

lemma trimWs_id (s : Str) (h : s.all (fun c => !jsWs c) = true) : trimWs s = s := by
  unfold trimWs
  rw [dropWhile_of_all_not _ s h]
  rw [dropWhile_of_all_not _ s.reverse (by simpa using h)]
  exact List.reverse_reverse s

lemma tsMatchAt_marker (d : IsoDate) (rest : Str) :
    tsMatchAt (buildTimestampLine d ++ rest) =
      some (buildTimestampLine d, isoFormat d, rest) := by
  obtain ⟨c, t, hiso⟩ := isoFormat_cons d
  have hall : (c :: t).all isoCleanChar = true := hiso ▸ isoFormat_clean d
  simp only [List.all_cons, Bool.and_eq_true] at hall
  obtain ⟨hc, ht⟩ := hall
  simp only [isoCleanChar, Bool.and_eq_true, Bool.not_eq_true'] at hc
  have hlit : "*Last updated: ".toList = tsLiteral ++ [' '] := by decide
  have hB : buildTimestampLine d ++ rest = tsLiteral ++ ' ' :: (c :: (t ++ '*' :: rest)) := by
    simp [buildTimestampLine, formatTimestamp, hiso, hlit, tsLiteral, List.append_assoc]
  have hB2 : buildTimestampLine d = tsLiteral ++ ' ' :: (c :: (t ++ ['*'])) := by
    simp [buildTimestampLine, formatTimestamp, hiso, hlit, tsLiteral, List.append_assoc]
  unfold tsMatchAt
  rw [hB]
  have hsw : startsWithL (tsLiteral ++ ' ' :: (c :: (t ++ '*' :: rest))) tsLiteral = true :=
    startsWithL_self_append _ _
  rw [if_pos hsw]
  simp only []
  have hdrop : (tsLiteral ++ ' ' :: (c :: (t ++ '*' :: rest))).drop 14 =
      ' ' :: (c :: (t ++ '*' :: rest)) := by
    rw [show (14 : Nat) = tsLiteral.length from by decide]
    exact List.drop_left _ _
  rw [hdrop]
  have htw : ((' ' :: (c :: (t ++ '*' :: rest))).takeWhile (fun x => jsWs x)).length = 1 := by
    rw [List.takeWhile_cons, if_pos (by decide : jsWs ' ' = true),
      List.takeWhile_cons, if_neg (by simp [hc.2])]
    rfl
  rw [htw]
  rw [tsTryNs]
  have hatt : tsAttempt 1 (' ' :: (c :: (t ++ '*' :: rest))) =
      some (' ' :: ((c :: t) ++ ['*']), c :: t, rest) := by
    unfold tsAttempt
    simp only [List.drop_succ_cons, List.drop_zero]
    rw [if_pos hc.1.1]
    rw [lazyScan_clean t [c] rest ht]
    simp
  rw [hatt]
  simp only []
  rw [hB2, hiso]
  simp

lemma tsLiteral_drop_head : ∀ k, 1 ≤ k → k < 14 →
    (match tsLiteral.drop k with
     | c0 :: _ => !(c0 = '*')
     | [] => false) = true := by decide

lemma startsWithL_star_lit_drop (X' : Str) (k : Nat) (h1 : 1 ≤ k) (h2 : k < 14) :
    startsWithL ('*' :: X') (tsLiteral.drop k) = false := by
  have hk := tsLiteral_drop_head k h1 h2
  cases hdrop : tsLiteral.drop k with
  | nil => rw [hdrop] at hk; simp at hk
  | cons c0 r0 =>
    rw [hdrop] at hk
    have hne : ('*' : Char) ≠ c0 := by
      intro he
      rw [← he] at hk
      simp at hk
    simp [startsWithL, hne]

lemma tsMatchAt_none_of (s : Str) (h : startsWithL s tsLiteral = false) :
    tsMatchAt s = Option.none := by
  unfold tsMatchAt
  rw [h]
  simp

lemma tsFindGo_prepend (m g r : Str) (X' : Str)
    (hmX : tsMatchAt ('*' :: X') = some (m, g, r)) :
    ∀ pre fuel, containsSub pre tsLiteral = false → pre.length < fuel →
      tsFindGo fuel (pre ++ '*' :: X') = some (pre, m, g, r) := by
  intro pre
  induction pre with
  | nil =>
    intro fuel _ hlen
    cases fuel with
    | zero => exact absurd hlen (by omega)
    | succ f =>
      rw [List.nil_append, tsFindGo, hmX]
  | cons a pre' ih =>
    intro fuel hns hlen
    cases fuel with
    | zero => exact absurd hlen (by omega)
    | succ f =>
      have hns' : containsSub pre' tsLiteral = false := by
        rw [containsSub, Bool.or_eq_false_iff] at hns
        exact hns.2
      have hlit14 : tsLiteral.length = 14 := by decide
      have hsw_f : startsWithL ((a :: pre') ++ '*' :: X') tsLiteral = false := by
        cases hsw : startsWithL ((a :: pre') ++ '*' :: X') tsLiteral with
        | false => rfl
        | true =>
          exfalso
          by_cases hlen2 : tsLiteral.length ≤ (a :: pre').length
          · have h1 := startsWithL_prefix_long tsLiteral (a :: pre') ('*' :: X') hsw hlen2
            have h2 := containsSub_of_startsWithL _ _ h1
            rw [h2] at hns
            cases hns
          · push_neg at hlen2
            have h3 := startsWithL_append_mid tsLiteral (a :: pre') ('*' :: X') hsw hlen2
            have h4 := startsWithL_star_lit_drop X' (a :: pre').length
              (by simp) (by omega)
            rw [h4] at h3
            cases h3
      have hmat : tsMatchAt (a :: (pre' ++ '*' :: X')) = Option.none := by
        have := tsMatchAt_none_of _ hsw_f
        simpa [List.cons_append] using this
      rw [List.cons_append, tsFindGo, hmat]
      rw [ih f hns' (by simp at hlen; omega)]

/-- The first match of the marker regex over prefix-plus-freshly-built
line: it is located exactly at the built line when the prefix does not
contain the literal `*Last updated:`. -/
lemma tsFind_prepend_marker (d : IsoDate) (pre rest : Str)
    (hns : containsSub pre tsLiteral = false) :
    tsFind (pre ++ buildTimestampLine d ++ rest) =
      some (pre, buildTimestampLine d, isoFormat d, rest) := by
  obtain ⟨B', hB'⟩ : ∃ B', buildTimestampLine d ++ rest = '*' :: B' := by
    refine ⟨"Last updated: ".toList ++ formatTimestamp d ++ '*' :: rest, ?_⟩
    simp [buildTimestampLine, List.append_assoc]
  have hm : tsMatchAt ('*' :: B') = some (buildTimestampLine d, isoFormat d, rest) := by
    rw [← hB']
    exact tsMatchAt_marker d rest
  unfold tsFind
  rw [List.append_assoc, hB']
  rw [tsFindGo_prepend _ _ _ _ hm pre _ hns (by simp; omega)]

lemma isoFormat_no_ws (d : IsoDate) : (isoFormat d).all (fun c => !jsWs c) = true := by
  have hclean := isoFormat_clean d
  simp only [List.all_eq_true] at hclean ⊢
  intro x hx
  have hcx := hclean x hx
  simp only [isoCleanChar, Bool.and_eq_true, Bool.not_eq_true'] at hcx
  simp [hcx.2]

/-- The demo date used in the concrete timestamp scenarios. -/
def rtDate : IsoDate := ⟨2026, 2, 16, 14, 30, 0, 0⟩

/-- A well-behaved document: prefix text without any stray
`*Last updated:` occurrence, then a marker line, then a body. -/
def rtContent : Str := "pageId=a\n*Last updated: 2020-01-01*\nbody".toList

/-- A pathological document: a dangling `*Last updated:` occurrence
directly before the real marker (whose whitespace holds a newline). -/
def pathologicalContent : Str := "*Last updated:*Last updated:\n2020-01-01*".toList

/-- C6 counterexample: `pathologicalContent` does contain a timestamp
marker (the regex matches it), yet after `replaceTimestampInContent` the
regex re-anchors on the dangling prefix and captures a group that starts
with `*Last updated:` itself, which is not a date — so
`parseTimestamp` returns `none`, not the injected date. -/
theorem replaceTimestamp_roundtrip_counterexample :
    (tsFind pathologicalContent).isSome = true
    ∧ parseTimestamp (replaceTimestampInContent pathologicalContent rtDate) = Option.none
    ∧ Option.none ≠ some rtDate := by
  refine ⟨by decide, by decide, by decide⟩

/-- C6 amended: for every content string whose first timestamp-marker
match is not preceded by another occurrence of the literal
`*Last updated:`, replacing the timestamp and re-parsing returns exactly
the injected date (dates are millisecond-precise, so truncation to
millisecond ISO precision is the identity); and content without any
marker is returned byte-identical, with no marker injected. -/
theorem replaceTimestamp_parseTimestamp_roundtrip (content : Str) (d : IsoDate) :
    (ValidIsoDate d →
      ∀ pre m g rest, tsFind content = some (pre, m, g, rest) →
        containsSub pre tsLiteral = false →
        parseTimestamp (replaceTimestampInContent content d) = some d)
    ∧ (tsFind content = Option.none → replaceTimestampInContent content d = content) := by
  constructor
  · intro hd pre m g rest hfind hns
    unfold replaceTimestampInContent
    rw [hfind]
    unfold parseTimestamp
    rw [tsFind_prepend_marker d pre rest hns]
    simp only []
    obtain ⟨c, t, hiso⟩ := isoFormat_cons d
    have hni : (isoFormat d).isEmpty = false := by rw [hiso]; rfl
    rw [hni]
    simp only [Bool.false_eq_true, if_false]
    rw [trimWs_id _ (isoFormat_no_ws d)]
    exact jsParseDate_isoFormat d hd
  · intro hnone
    unfold replaceTimestampInContent
    rw [hnone]

/-- C6 amended, witness: the round trip applied to the concrete document
`rtContent` and date `rtDate`. -/
theorem replaceTimestamp_parseTimestamp_roundtrip_witness :
    parseTimestamp (replaceTimestampInContent rtContent rtDate) = some rtDate :=
  (replaceTimestamp_parseTimestamp_roundtrip rtContent rtDate).1 (by decide)
    "pageId=a\n".toList "*Last updated: 2020-01-01*".toList "2020-01-01".toList
    "\nbody".toList (by decide) (by decide)
